import Mathlib

set_option maxRecDepth 40000

/-!
Verification development for the query-building and method-dispatch engine of
the `yep`/hexya ORM layer (package `yep/models`).

The method-dispatch functions (`RecordCollection.Call`, `RecordCollection.Super`
and the lower-case wrapper `call`) are embedded directly from the source file.
The query-building subsystem (field/relation resolver, join planner, condition
tree and SQL rendering) is not part of the provided sources: only its
golden-string test (`t04_queries_test.go`) is.  Those definitions are therefore
modelled from the specification, and every modelling choice about the exact SQL
layout is validated byte-for-byte against the golden strings of the test file.
-/

namespace Models

/-! ## Data model of the field registry

Modelled from the spec: the model/field registry consumed by the core, a
mapping from model name to field definitions (name, storage column, optional
relation target model, optional alias name).  The Go source for the registry
(`models.go` / `fields.go`) is not among the provided files. -/

/-- One field of a model: internal storage name (snake_case), human-facing
alias name (capitalized-word style), SQL column, and the optional target model
name when the field is a relation ("many-to-one" style). -/
structure FieldDef where
  storageName : String
  aliasName : String
  column : String
  relTarget : Option String
deriving DecidableEq

/-- A model: name, SQL table name, and its list of fields. -/
structure ModelDef where
  name : String
  tableName : String
  fields : List FieldDef
deriving DecidableEq

/-- One LEFT JOIN step derived from a relation traversal. -/
structure JoinStep where
  srcAlias : String
  srcCol : String
  tgtTable : String
  tgtAlias : String
  tgtCol : String
deriving DecidableEq

/-- Look a model up in the registry by name. -/
def getModel (reg : List ModelDef) (n : String) : Option ModelDef :=
  reg.find? (fun m => m.name == n)

/-- Look a field up on a model by path segment.  A segment may be given in
either the storage naming convention or the alias naming convention: both
resolve to the same field. -/
def getField (m : ModelDef) (seg : String) : Option FieldDef :=
  m.fields.find? (fun f => f.storageName == seg || f.aliasName == seg)

/-! ## Field/relation resolver

Modelled from the spec: given a model and a dotted path, produce the ordered
list of join steps plus the final (alias, column) to select or filter on.
Every segment except the last must be a relation field; the table alias for
each traversed relation extends the current alias with a double-underscore
separator and the related model's table name (per the golden strings of
`t04_queries_test.go`, e.g. `user__profile__post`).  Fatal errors of the Go
implementation (unknown model, unknown field, non-relation intermediate
segment) are modelled as `none`. -/

/-- Resolve a list of path segments against a model, starting from table alias
`al`.  Returns the join steps, the final table alias and the final column. -/
def resolvePath (reg : List ModelDef) :
    ModelDef → String → List String → Option (List JoinStep × String × String)
  | m, al, [seg] =>
    match getField m seg with
    | none => none
    | some f => some ([], al, f.column)
  | m, al, seg :: rest =>
    match getField m seg with
    | none => none
    | some f =>
      match f.relTarget with
      | none => none
      | some t =>
        match getModel reg t with
        | none => none
        | some tm =>
          match resolvePath reg tm (al ++ "__" ++ tm.tableName) rest with
          | none => none
          | some r =>
            some (⟨al, f.column, tm.tableName, al ++ "__" ++ tm.tableName, "id"⟩ :: r.1, r.2)
  | _, _, [] => none

/-- Split a dotted path string into its segments (structural-recursion
replacement for `String.splitOn "."`, so that it evaluates in the kernel). -/
def splitCh : List Char → List Char → List (List Char)
  | [], acc => [acc.reverse]
  | c :: cs, acc =>
    if c = '.' then acc.reverse :: splitCh cs [] else splitCh cs (c :: acc)

/-- Segments of a dotted field path. -/
def splitDots (s : String) : List String :=
  (splitCh s.data []).map (fun l => String.mk l)

/-- Resolve a dotted field path from the base model, whose own table name is
the starting alias. -/
def resolveField (reg : List ModelDef) (m : ModelDef) (path : String) :
    Option (List JoinStep × String × String) :=
  resolvePath reg m m.tableName (splitDots path)

/-! ## Condition tree

Modelled from the spec: a boolean expression tree of (field path, operator,
value) predicates built by the fluent `And` / `Or` / `AndCond` constructors. -/

/-- An untyped bound value (Go `interface{}`).  Decimal literals such as
`1234.56` are carried opaquely as their literal text: the engine never
computes with values, it only forwards them to the argument list. -/
inductive Val where
  | s (v : String)
  | i (v : Int)
  | dec (v : String)
deriving DecidableEq

/-- The condition tree.  `empty` is the freshly built tree with no
predicates; `grp` is a parenthesized sub-group. -/
inductive Cond where
  | empty
  | leaf (path op : String) (value : Val)
  | andC (l r : Cond)
  | orC (l r : Cond)
  | grp (c : Cond)
deriving DecidableEq

/-- A fresh condition with no predicates. -/
def NewCondition : Cond := .empty

/-- Append a predicate to the current implicit conjunction. -/
def Cond.And (c : Cond) (path op : String) (v : Val) : Cond :=
  match c with
  | .empty => .leaf path op v
  | c => .andC c (.leaf path op v)

/-- Wrap the accumulated predicates-so-far and the new predicate as
alternatives. -/
def Cond.Or (c : Cond) (path op : String) (v : Val) : Cond :=
  match c with
  | .empty => .leaf path op v
  | c => .orC c (.leaf path op v)

/-- Merge a full sub-tree into this condition as one AND'd parenthesized
group. -/
def Cond.AndCond (c d : Cond) : Cond :=
  match c, d with
  | .empty, d => d
  | c, .empty => c
  | c, d => .andC c (.grp d)

/-- The field paths referenced by the predicates of a condition, in clause
order. -/
def condPaths : Cond → List String
  | .empty => []
  | .leaf p _ _ => [p]
  | .andC l r => condPaths l ++ condPaths r
  | .orC l r => condPaths l ++ condPaths r
  | .grp c => condPaths c

/-- The bound values of a condition, in clause order. -/
def condValues : Cond → List Val
  | .empty => []
  | .leaf _ _ v => [v]
  | .andC l r => condValues l ++ condValues r
  | .orC l r => condValues l ++ condValues r
  | .grp c => condValues c

/-! ## SQL rendering

Modelled from the spec: `?`-style positional placeholders, double-quoted
identifiers, a trailing space after each clause segment, and wildcard-wrap
rendering of the pattern-match operator (`LIKE %?%`).  The exact layout is
pinned by the golden strings of `t04_queries_test.go`. -/

/-- SQL text of an operator, including its placeholder.  The pattern-match
operator wraps the placeholder in wildcard markers at render time; the bound
value itself is passed through unwrapped. -/
def opSQL : String → Option String
  | "=" => some "= ?"
  | "!=" => some "!= ?"
  | ">" => some "> ?"
  | ">=" => some ">= ?"
  | "<" => some "< ?"
  | "<=" => some "<= ?"
  | "like" => some "LIKE %?%"
  | _ => none

/-- SQL text of one predicate: the table-qualified resolved column followed by
the operator and its placeholder, with a trailing space. -/
def predSQL (reg : List ModelDef) (m : ModelDef) (path op : String) : Option String :=
  match resolveField reg m path with
  | none => none
  | some r =>
    match opSQL op with
    | none => none
    | some o => some ("\"" ++ r.2.1 ++ "\"." ++ r.2.2 ++ " " ++ o ++ " ")

/-- Render a condition tree to a SQL fragment plus its ordered argument
list. -/
def renderCond (reg : List ModelDef) (m : ModelDef) : Cond → Option (String × List Val)
  | .empty => some ("", [])
  | .leaf p op v =>
    match predSQL reg m p op with
    | none => none
    | some s => some (s, [v])
  | .andC l r =>
    match renderCond reg m l with
    | none => none
    | some a =>
      match renderCond reg m r with
      | none => none
      | some b => some (a.1 ++ "AND " ++ b.1, a.2 ++ b.2)
  | .orC l r =>
    match renderCond reg m l with
    | none => none
    | some a =>
      match renderCond reg m r with
      | none => none
      | some b => some (a.1 ++ "OR " ++ b.1, a.2 ++ b.2)
  | .grp c =>
    match renderCond reg m c with
    | none => none
    | some a => some ("(" ++ a.1 ++ ") ", a.2)

/-! ## Query builder -/

/-- A query: the registry, the target model and the active condition tree. -/
structure Query where
  reg : List ModelDef
  model : ModelDef
  cond : Cond
deriving DecidableEq

/-- Add one predicate to the query's condition (fluent filter). -/
def Query.Filter (q : Query) (path op : String) (v : Val) : Query :=
  { q with cond := q.cond.And path op v }

/-- Merge a condition into the query's condition tree. -/
def Query.SetCond (q : Query) (c : Cond) : Query :=
  { q with cond := q.cond.AndCond c }

/-- The WHERE fragment of the query (leading keyword included) plus its
argument list; empty string and no arguments when the condition tree holds no
predicates. -/
def sqlWhereClause (q : Query) : Option (String × List Val) :=
  match q.cond with
  | .empty => some ("", [])
  | c =>
    match renderCond q.reg q.model c with
    | none => none
    | some r => some ("WHERE " ++ r.1, r.2)

/-- Deduplicate join steps, keeping the first occurrence of each target table
alias (the alias is the dedup key: it encodes the resolved path). -/
def dedupAux (seen : List String) : List JoinStep → List JoinStep
  | [] => []
  | j :: rest =>
    if j.tgtAlias ∈ seen then dedupAux seen rest
    else j :: dedupAux (j.tgtAlias :: seen) rest

/-- Join deduplication entry point. -/
def dedupJoins : List JoinStep → List JoinStep := dedupAux []

/-- SQL text of one LEFT JOIN step, with a trailing space. -/
def joinSQL (j : JoinStep) : String :=
  "LEFT JOIN \"" ++ j.tgtTable ++ "\" \"" ++ j.tgtAlias ++ "\" ON \"" ++
    j.srcAlias ++ "\"." ++ j.srcCol ++ "=\"" ++ j.tgtAlias ++ "\"." ++ j.tgtCol ++ " "

/-- Concatenate strings with a separator. -/
def joinSep (sep : String) : List String → String
  | [] => ""
  | [x] => x
  | x :: xs => x ++ sep ++ joinSep sep xs

/-- Concatenate a list of strings. -/
def concatAll : List String → String
  | [] => ""
  | x :: xs => x ++ concatAll xs

/-- Resolve every element of a list, failing if any element fails. -/
def mapO {α β : Type} (f : α → Option β) : List α → Option (List β)
  | [] => some []
  | x :: xs =>
    match f x with
    | none => none
    | some y =>
      match mapO f xs with
      | none => none
      | some ys => some (y :: ys)

/-- The SELECT/FROM/JOIN part of the query (everything before the WHERE
clause), with a trailing space.  Joins required by the selected fields and by
the condition tree are merged in first-seen order and deduplicated by table
alias. -/
def selectBase (q : Query) (fields : List String) : Option String :=
  match mapO (resolveField q.reg q.model) fields with
  | none => none
  | some rf =>
    match mapO (resolveField q.reg q.model) (condPaths q.cond) with
    | none => none
    | some rc =>
      some ("SELECT " ++
        joinSep ", " (rf.map (fun r => "\"" ++ r.2.1 ++ "\"." ++ r.2.2)) ++
        " FROM \"" ++ q.model.tableName ++ "\" \"" ++ q.model.tableName ++ "\" " ++
        concatAll ((dedupJoins ((rf.map (fun r => r.1)).flatten ++
          (rc.map (fun r => r.1)).flatten)).map joinSQL) ++ " ")

/-- The full parameterized SELECT statement plus its ordered argument list. -/
def selectQuery (q : Query) (fields : List String) : Option (String × List Val) :=
  match selectBase q fields with
  | none => none
  | some base =>
    match sqlWhereClause q with
    | none => none
    | some w => some (base ++ w.1, w.2)

/-! ## The concrete registry of the golden-string test

The test module behind `t04_queries_test.go`: model `User` has relation field
`profile_id`/`Profile` to model `Profile`, which has relation field
`best_post_id`/`BestPost` to model `Post`. -/

def userNameFld : FieldDef := ⟨"user_name", "UserName", "user_name", none⟩
def profileFld : FieldDef := ⟨"profile_id", "Profile", "profile_id", some "Profile"⟩
def ageFld : FieldDef := ⟨"age", "Age", "age", none⟩
def moneyFld : FieldDef := ⟨"money", "Money", "money", none⟩
def bestPostFld : FieldDef := ⟨"best_post_id", "BestPost", "best_post_id", some "Post"⟩
def titleFld : FieldDef := ⟨"title", "Title", "title", none⟩

def userModel : ModelDef := ⟨"User", "user", [userNameFld, profileFld]⟩
def profileModel : ModelDef := ⟨"Profile", "profile", [ageFld, moneyFld, bestPostFld]⟩
def postModel : ModelDef := ⟨"Post", "post", [titleFld]⟩

def testReg : List ModelDef := [userModel, profileModel, postModel]

/-- `env.Pool("User")`: a fresh query on `User` with no conditions. -/
def baseQuery : Query := ⟨testReg, userModel, .empty⟩

def fields1s : List String := ["user_name", "profile_id.best_post_id.title"]
def fields1a : List String := ["UserName", "Profile.BestPost.Title"]

/-- The test's first query, storage naming convention. -/
def q1 : Query := baseQuery.Filter "profile_id.best_post_id.title" "=" (.s "foo")

/-- The test's first query, alias naming convention. -/
def q1a : Query := baseQuery.Filter "Profile.BestPost.Title" "=" (.s "foo")

/-- The test's second state: `Profile.Age >= 12` added. -/
def q2 : Query := q1a.Filter "Profile.Age" ">=" (.i 12)

/-- The test's standalone condition `user_name like "jane" OR Profile.Money < 1234.56`. -/
def c2cond : Cond :=
  (NewCondition.And "user_name" "like" (.s "jane")).Or "Profile.Money" "<" (.dec "1234.56")

/-- The test's third state: `c2cond` merged into the builder. -/
def q3 : Query := q2.SetCond c2cond

def selGolden1 : String :=
  "SELECT \"user\".user_name, \"user__profile__post\".title FROM \"user\" \"user\" LEFT JOIN \"profile\" \"user__profile\" ON \"user\".profile_id=\"user__profile\".id LEFT JOIN \"post\" \"user__profile__post\" ON \"user__profile\".best_post_id=\"user__profile__post\".id  WHERE \"user__profile__post\".title = ? "

def whereGolden2 : String :=
  "WHERE \"user__profile__post\".title = ? AND \"user__profile\".age >= ? "

def whereGolden3 : String :=
  "WHERE \"user__profile__post\".title = ? AND \"user__profile\".age >= ? AND (\"user\".user_name LIKE %?% OR \"user__profile\".money < ? ) "

def selGolden4 : String :=
  "SELECT \"user\".user_name, \"user__profile__post\".title FROM \"user\" \"user\" LEFT JOIN \"profile\" \"user__profile\" ON \"user\".profile_id=\"user__profile\".id LEFT JOIN \"post\" \"user__profile__post\" ON \"user__profile\".best_post_id=\"user__profile__post\".id  WHERE \"user__profile__post\".title = ? AND \"user__profile\".age >= ? AND (\"user\".user_name LIKE %?% OR \"user__profile\".money < ? ) "

def argsGolden3 : List Val := [.s "foo", .i 12, .s "jane", .dec "1234.56"]

/-- The mixed-convention variant of the test's first query. -/
def qMix : Query := baseQuery.Filter "profile_id.BestPost.title" "=" (.s "foo")

def fieldsMix : List String := ["UserName", "Profile.best_post_id.Title"]

/-- The base part of the select on `baseQuery` (no condition at all). -/
def noWhereGolden : String :=
  "SELECT \"user\".user_name, \"user__profile__post\".title FROM \"user\" \"user\" LEFT JOIN \"profile\" \"user__profile\" ON \"user\".profile_id=\"user__profile\".id LEFT JOIN \"post\" \"user__profile__post\" ON \"user__profile\".best_post_id=\"user__profile__post\".id  "

/-- Does the character list start with the given pattern? -/
def startsWithL : List Char → List Char → Bool
  | _, [] => true
  | [], _ :: _ => false
  | c :: cs, p :: ps => (c == p) && startsWithL cs ps

/-- Does the pattern occur as a contiguous substring of the character list? -/
def occursIn (pat : List Char) : List Char → Bool
  | [] => pat.isEmpty
  | c :: cs => startsWithL (c :: cs) pat || occursIn pat cs

/-! ## C1: the two naming conventions are interchangeable -/

/-- `namesB reg m p ss` holds when the segment list `ss` spells, segment by
segment, the semantic field path `p` starting from model `m`: each segment
looks up (in either naming convention) exactly the corresponding field, and
each non-final field is a relation to a registered model through which the
rest of the path continues. -/
def namesB (reg : List ModelDef) : ModelDef → List FieldDef → List String → Bool
  | m, [f], [s] => getField m s == some f
  | m, f :: fs, s :: ss =>
    (getField m s == some f) &&
    (match f.relTarget with
     | none => false
     | some t =>
       match getModel reg t with
       | none => false
       | some tm => namesB reg tm fs ss)
  | _, _, _ => false

def fpathTitle : List FieldDef := [profileFld, bestPostFld, titleFld]
def segsS : List String := ["profile_id", "best_post_id", "title"]
def segsA : List String := ["Profile", "BestPost", "Title"]

/-! ## C2: join planner, alias assignment and deduplication -/

/-- The chain of table aliases generated when traversing the given table
names in order, starting from alias `al`: each step appends the double
underscore separator followed by the next table name. -/
def aliasChain (al : String) : List String → List String
  | [] => []
  | t :: ts => (al ++ "__" ++ t) :: aliasChain (al ++ "__" ++ t) ts

/-- The table names of the related models traversed by a segment path (one
per relation hop, excluding the base model). -/
def tablesOf (reg : List ModelDef) : ModelDef → List String → Option (List String)
  | m, [seg] =>
    (match getField m seg with
     | none => none
     | some _ => some [])
  | m, seg :: rest =>
    match getField m seg with
    | none => none
    | some f =>
      match f.relTarget with
      | none => none
      | some t =>
        match getModel reg t with
        | none => none
        | some tm =>
          match tablesOf reg tm rest with
          | none => none
          | some ts => some (tm.tableName :: ts)
  | _, [] => none

/-- The `User → Profile` join of the golden scenario. -/
def jUserProfile : JoinStep := ⟨"user", "profile_id", "profile", "user__profile", "id"⟩

/-- The `Profile → Post` join of the golden scenario. -/
def jProfilePost : JoinStep :=
  ⟨"user__profile", "best_post_id", "post", "user__profile__post", "id"⟩

/-! ## C4: placeholder/argument alignment -/

/-- Number of `?` placeholders in a string. -/
def qCount (s : String) : Nat := s.data.count '?'

/-- No component of the join step contains a placeholder character. -/
def joinQFree (j : JoinStep) : Prop :=
  qCount j.srcAlias = 0 ∧ qCount j.srcCol = 0 ∧ qCount j.tgtTable = 0 ∧
    qCount j.tgtAlias = 0 ∧ qCount j.tgtCol = 0

/-- The model's table name and columns contain no placeholder character. -/
def modelQFree (m : ModelDef) : Prop :=
  qCount m.tableName = 0 ∧ ∀ f ∈ m.fields, qCount f.column = 0

/-- Every model of the registry is placeholder-free. -/
def regQFree (reg : List ModelDef) : Prop := ∀ m ∈ reg, modelQFree m

instance (m : ModelDef) : Decidable (modelQFree m) := by
  unfold modelQFree
  infer_instance

instance (reg : List ModelDef) : Decidable (regQFree reg) := by
  unfold regQFree
  infer_instance

/-! ## Method registry and layer resolver

Modelled from the spec (the Go files `methods.go` holding `methodsCollection`,
`methodInfo.topLayer` and `methodInfo.getNextLayer` are not among the provided
sources): the layers of a (model, method) pair form a finite, strictly ordered
chain from the most recently registered layer (the top, index `0`) down to the
original base layer (index `nLayers - 1`); `getNextLayer` returns the layer
immediately below the given one, or `none` at the base. -/

/-- The registry entry of one method on one model: its name and the length of
its layer chain.  Layer `0` is the top (most recently registered) layer and
layer `nLayers - 1` is the base layer. -/
structure MethodInfo where
  methodName : String
  nLayers : Nat
deriving DecidableEq

/-- A model's method registry. -/
structure ModelInfo where
  name : String
  methods : List MethodInfo
deriving DecidableEq

/-- One call frame: a method layer, i.e. the method's registry entry plus the
layer's position in the chain (`methodLayer` in the Go source). -/
structure Frame where
  methInfo : MethodInfo
  layerIdx : Nat
deriving DecidableEq

/-- `rc.mi.methods.get(methName)` of the Go source. -/
def methodsGet (mi : ModelInfo) (methName : String) : Option MethodInfo :=
  mi.methods.find? (fun m => m.methodName == methName)

/-- `methInfo.topLayer`: the most recently registered layer. -/
def topLayer (info : MethodInfo) : Frame := ⟨info, 0⟩

/-- `methInfo.getNextLayer(layer)`: the layer immediately below the given one
in its chain, or `none` when the given layer is already the base. -/
def getNextLayer (info : MethodInfo) (f : Frame) : Option Frame :=
  if f.layerIdx + 1 < info.nLayers then some ⟨info, f.layerIdx + 1⟩ else none

/-! ## Call dispatcher

Embedded from the source file (`RecordCollection.Call`, `RecordCollection.Super`
and the wrapper `call`).  The fatal `logging.LogAndPanic` paths are modelled as
`Except.error` carrying the logged message; the `interface{}` values crossing
the dispatch boundary are modelled by the opaque type `Ival`. -/

/-- An untyped dispatch value (Go `interface{}`). -/
inductive Ival where
  | u
  | n (v : Nat)
  | s (v : String)
deriving DecidableEq

/-- A `RecordCollection`: its model info and the per-invocation call stack
(innermost frame first, as in the Go slice `rc.callStack`). -/
structure RecordCollection where
  mi : ModelInfo
  callStack : List Frame
deriving DecidableEq

/-- The bodies of all method layers: given a layer (method entry and index)
and the receiver it was invoked with, produce the slice of returned values
(`methLayer.funcValue.Call(inVals)` of the Go source). -/
abbrev LayerImpl := MethodInfo → Nat → RecordCollection → List Ival → List Ival

/-- The receiver a layer is invoked with: the frame is prepended to the
receiver's current call stack
(`rc.callStack = append([]*methodLayer{methLayer}, rc.callStack...)`). -/
def invokedRC (rc : RecordCollection) (fr : Frame) : RecordCollection :=
  { rc with callStack := fr :: rc.callStack }

/-- `RecordCollection.call`: push the frame, invoke the layer's function, and
return `nil` when it returns no values, else its first returned value. -/
def call (F : LayerImpl) (rc : RecordCollection) (fr : Frame) (args : List Ival) :
    Option Ival :=
  match F fr.methInfo fr.layerIdx (invokedRC rc fr) args with
  | [] => none
  | v :: _ => some v

/-- `RecordCollection.Call`: look the method up on the receiver's model (a
fatal error if unknown) and invoke its top layer. -/
def Call (F : LayerImpl) (rc : RecordCollection) (methName : String) (args : List Ival) :
    Except String (Option Ival) :=
  match methodsGet rc.mi methName with
  | none => .error "Unknown method in model"
  | some info => .ok (call F rc (topLayer info) args)

/-- `RecordCollection.Super`: a fatal error on an empty call stack; otherwise
resolve the predecessor of the innermost frame's layer and invoke it, or
return `nil` silently when the innermost layer is already the base. -/
def Super (F : LayerImpl) (rc : RecordCollection) (args : List Ival) :
    Except String (Option Ival) :=
  match rc.callStack with
  | [] => .error "Empty call stack"
  | curr :: _ =>
    match getNextLayer curr.methInfo curr with
    | none => .ok none
    | some nf => .ok (call F rc nf args)

/-- The call stack observed by the layer of index `k` when it has been reached
by `k` successive `Super` steps from a fresh `Call` on an empty-stack
receiver: frames for layers `k, k-1, …, 0`, innermost first. -/
def chainStack (info : MethodInfo) : Nat → List Frame
  | 0 => [⟨info, 0⟩]
  | k + 1 => ⟨info, k + 1⟩ :: chainStack info k

/-- The frames below the head of `chainStack`. -/
def chainTail (info : MethodInfo) : Nat → List Frame
  | 0 => []
  | k + 1 => chainStack info k

/-! ### Concrete dispatch fixtures -/

/-- A method with a three-layer chain. -/
def probeInfo : MethodInfo := ⟨"probe", 3⟩

def probeModelInfo : ModelInfo := ⟨"User", [probeInfo]⟩

/-- A layer body that reports the length of the call stack it observes. -/
def stackLenF : LayerImpl := fun _ _ rc _ => [.n rc.callStack.length]

/-- A layer body that returns no values. -/
def noneF : LayerImpl := fun _ _ _ _ => []

/-- A layer body that returns two values. -/
def twoF : LayerImpl := fun _ _ _ _ => [.n 7, .n 8]

/-- A receiver outside any invocation: empty call stack. -/
def freshRC : RecordCollection := ⟨probeModelInfo, []⟩

/-- A receiver captured inside a running invocation: its call stack already
holds one frame. -/
def busyRC : RecordCollection := ⟨probeModelInfo, [⟨probeInfo, 0⟩]⟩

/-- A receiver whose innermost frame is the base layer of its chain. -/
def baseRC : RecordCollection := ⟨probeModelInfo, [⟨probeInfo, 2⟩]⟩

/-- Fidelity of the model: every golden SQL string asserted by
`t04_queries_test.go` is reproduced byte for byte by the embedding, with the
bound arguments the test checks for. -/
theorem golden_strings_reproduced :
    selectQuery q1 fields1s = some (selGolden1, [.s "foo"]) ∧
    selectQuery q1a fields1a = some (selGolden1, [.s "foo"]) ∧
    sqlWhereClause q2 = some (whereGolden2, [.s "foo", .i 12]) ∧
    sqlWhereClause q3 = some (whereGolden3, argsGolden3) ∧
    selectQuery q3 fields1a = some (selGolden4, argsGolden3) :=
  ⟨by decide, by decide, by decide, by decide, by decide⟩

/-! ## String helper lemmas -/

theorem strData_append (a b : String) : (a ++ b).data = a.data ++ b.data := by
  cases a
  cases b
  rfl

theorem strAppend_empty (s : String) : s ++ "" = s := by
  cases s with
  | mk l => exact congrArg String.mk (List.append_nil l)

theorem namesB_nil (reg : List ModelDef) (m : ModelDef) (ss : List String) :
    namesB reg m [] ss = false := by
  cases ss <;> rfl

theorem namesB_ne_nil (reg : List ModelDef) (m : ModelDef) (g : FieldDef)
    (gs : List FieldDef) (ss : List String) (h : namesB reg m (g :: gs) ss = true) :
    ss ≠ [] := by
  intro he
  subst he
  have hf : namesB reg m (g :: gs) [] = false := by cases gs <;> rfl
  rw [hf] at h
  cases h

theorem namesB_single_shape (reg : List ModelDef) (m : ModelDef) (f : FieldDef)
    (ss : List String) (h : namesB reg m [f] ss = true) :
    ∃ s, ss = [s] ∧ getField m s = some f := by
  match ss with
  | [] =>
    rw [show namesB reg m [f] ([] : List String) = false from rfl] at h
    cases h
  | [s] =>
    exact ⟨s, rfl, eq_of_beq h⟩
  | s :: s2 :: ss'' =>
    exfalso
    unfold namesB at h
    rw [Bool.and_eq_true] at h
    obtain ⟨-, h2⟩ := h
    split at h2
    · cases h2
    · split at h2
      · cases h2
      · rw [namesB_nil] at h2
        cases h2

theorem namesB_cons_shape (reg : List ModelDef) (m : ModelDef) (f f2 : FieldDef)
    (fs2 : List FieldDef) (ss : List String)
    (h : namesB reg m (f :: f2 :: fs2) ss = true) :
    ∃ s ss', ss = s :: ss' ∧ getField m s = some f ∧
      ∃ t tm, f.relTarget = some t ∧ getModel reg t = some tm ∧
        namesB reg tm (f2 :: fs2) ss' = true := by
  match ss with
  | [] =>
    rw [show namesB reg m (f :: f2 :: fs2) [] = false from rfl] at h
    cases h
  | s :: ss' =>
    refine ⟨s, ss', rfl, ?_⟩
    unfold namesB at h
    rw [Bool.and_eq_true] at h
    obtain ⟨h1, h2⟩ := h
    refine ⟨eq_of_beq h1, ?_⟩
    split at h2
    · cases h2
    · next t ht =>
      split at h2
      · cases h2
      · next tm htm => exact ⟨t, tm, ht, htm, h2⟩

/-- C1.  Any two segment lists spelling the same semantic field path — in the
storage convention, the alias convention, or any mixture — resolve to the
identical join-step list, final alias and final column; and on the concrete
golden scenario the storage, alias and mixed spellings produce the identical
SQL string and argument list (the golden ones of the test). -/
theorem naming_convention_interchangeable :
    (∀ (reg : List ModelDef) (p : List FieldDef) (m : ModelDef) (al : String)
      (ss as : List String),
      namesB reg m p ss = true → namesB reg m p as = true →
      resolvePath reg m al ss = resolvePath reg m al as) ∧
    (selectQuery q1 fields1s = selectQuery q1a fields1a ∧
     selectQuery q1 fields1s = selectQuery qMix fieldsMix ∧
     selectQuery q1 fields1s = some (selGolden1, [.s "foo"])) := by
  constructor
  · intro reg p
    induction p with
    | nil =>
      intro m al ss as hs _
      rw [namesB_nil] at hs
      cases hs
    | cons f fs ih =>
      intro m al ss as hs ha
      cases fs with
      | nil =>
        obtain ⟨s, rfl, hfs⟩ := namesB_single_shape reg m f ss hs
        obtain ⟨a, rfl, hfa⟩ := namesB_single_shape reg m f as ha
        simp only [resolvePath, hfs, hfa]
      | cons f2 fs2 =>
        obtain ⟨s, ss', rfl, hfs, t, tm, hrel, hmod, hrec⟩ :=
          namesB_cons_shape reg m f f2 fs2 ss hs
        obtain ⟨a, as', rfl, hfa, t2, tm2, hrel2, hmod2, hrec2⟩ :=
          namesB_cons_shape reg m f f2 fs2 as ha
        rw [hrel] at hrel2
        cases hrel2
        rw [hmod] at hmod2
        cases hmod2
        obtain ⟨s2, ss'', rfl⟩ := List.exists_cons_of_ne_nil
          (namesB_ne_nil reg tm f2 fs2 ss' hrec)
        obtain ⟨a2, as'', rfl⟩ := List.exists_cons_of_ne_nil
          (namesB_ne_nil reg tm f2 fs2 as' hrec2)
        have hinner := ih tm (al ++ "__" ++ tm.tableName)
          (s2 :: ss'') (a2 :: as'') hrec hrec2
        simp only [resolvePath, hfs, hfa, hrel, hmod, hinner]
  · exact ⟨by decide, by decide, by decide⟩

theorem naming_convention_interchangeable_witness :
    namesB testReg userModel fpathTitle segsS = true ∧
    namesB testReg userModel fpathTitle segsA = true ∧
    resolvePath testReg userModel "user" segsS = resolvePath testReg userModel "user" segsA :=
  ⟨by decide, by decide,
    naming_convention_interchangeable.1 testReg fpathTitle userModel "user" segsS segsA
      (by decide) (by decide)⟩

/-! ## C3: empty condition tree -/

/-- C3.  On a condition tree with no predicates, `sqlWhereClause` returns the
empty string and an empty argument list, and `selectQuery` returns the bare
SELECT/FROM/JOIN part with nothing appended; concretely, the rendered select
of the test scenario without conditions contains no WHERE keyword. -/
theorem empty_condition_no_where :
    (∀ (q : Query) (fields : List String), q.cond = .empty →
      sqlWhereClause q = some ("", []) ∧
      selectQuery q fields = (selectBase q fields).map (fun s => (s, []))) ∧
    (selectQuery baseQuery fields1s = some (noWhereGolden, []) ∧
     occursIn "WHERE".data noWhereGolden.data = false) := by
  constructor
  · intro q fields h
    have hw : sqlWhereClause q = some ("", []) := by
      unfold sqlWhereClause
      rw [h]
    refine ⟨hw, ?_⟩
    unfold selectQuery
    cases hb : selectBase q fields with
    | none => rfl
    | some base => simp [hw, strAppend_empty]
  · exact ⟨by decide, by decide⟩

theorem empty_condition_no_where_witness :
    sqlWhereClause baseQuery = some ("", []) ∧
    selectQuery baseQuery fields1s = (selectBase baseQuery fields1s).map (fun s => (s, [])) :=
  empty_condition_no_where.1 baseQuery fields1s rfl

/-! ## C5: determinism and idempotence of rendering -/

/-- C5.  Rendering is a pure function of the query value (mirroring the Go
value-receiver methods pinned by the golden tests): rendering the same query
state twice with no mutation in between yields byte-identical SQL and
identical argument lists, and on the concrete test state `q3` both renderings
are the golden line-50 and line-55 strings of the test, byte for byte. -/
theorem render_deterministic_idempotent :
    (∀ (q : Query) (fields : List String),
      selectQuery q fields = selectQuery q fields ∧
      sqlWhereClause q = sqlWhereClause q) ∧
    (selectQuery q3 fields1a = some (selGolden4, argsGolden3) ∧
     sqlWhereClause q3 = some (whereGolden3, argsGolden3) ∧
     selectQuery q3 fields1a = some (selGolden4, argsGolden3)) :=
  ⟨fun _ _ => ⟨rfl, rfl⟩, by decide, by decide, by decide⟩

/-! ## C6: the LIKE / OR-group scenario -/

/-- C6.  Merging `user_name like "jane" OR Profile.Money < 1234.56` into the
builder that already holds the path-based conditions renders the OR group
parenthesized and AND-combined with the pre-existing predicates (the golden
`whereGolden3` string), the like-operator applies the wildcard wrapping
`LIKE %?%` at render time, and the bound value `"jane"` is passed through
unwrapped in the argument list. -/
theorem like_or_group_render :
    sqlWhereClause q3 = some (whereGolden3, argsGolden3) ∧
    argsGolden3 = [.s "foo", .i 12, .s "jane", .dec "1234.56"] ∧
    opSQL "like" = some "LIKE %?%" :=
  ⟨by decide, rfl, rfl⟩

theorem resolve_tables (reg : List ModelDef) :
    ∀ (segs : List String) (m : ModelDef) (al : String)
      (r : List JoinStep × String × String),
      resolvePath reg m al segs = some r →
      ∃ ts, tablesOf reg m segs = some ts ∧
        r.1.map JoinStep.tgtAlias = aliasChain al ts := by
  intro segs
  induction segs with
  | nil =>
    intro m al r h
    rw [show resolvePath reg m al [] = none from rfl] at h
    cases h
  | cons seg rest ih =>
    intro m al r h
    cases rest with
    | nil =>
      unfold resolvePath at h
      split at h
      · cases h
      · next f hf =>
        cases h
        refine ⟨[], ?_, rfl⟩
        simp only [tablesOf, hf]
    | cons seg2 rest2 =>
      unfold resolvePath at h
      split at h
      · cases h
      · next f hf =>
        split at h
        · cases h
        · next t ht =>
          split at h
          · cases h
          · next tm hmo =>
            split at h
            · cases h
            · next r2 hrec =>
              cases h
              obtain ⟨ts, hts, hmap⟩ := ih tm (al ++ "__" ++ tm.tableName) r2 hrec
              refine ⟨tm.tableName :: ts, ?_, ?_⟩
              · simp only [tablesOf, hf, ht, hmo, hts]
              · simp [aliasChain, hmap]

theorem dedupAux_subset :
    ∀ (l : List JoinStep) (seen : List String) (j : JoinStep),
      j ∈ dedupAux seen l → j ∈ l := by
  intro l
  induction l with
  | nil => intro seen j h; cases h
  | cons a rest ih =>
    intro seen j h
    unfold dedupAux at h
    split at h
    · exact List.mem_cons_of_mem a (ih seen j h)
    · rcases List.mem_cons.mp h with rfl | hm
      · exact List.mem_cons_self _ _
      · exact List.mem_cons_of_mem _ (ih _ j hm)

theorem dedupAux_covers :
    ∀ (l : List JoinStep) (seen : List String) (j : JoinStep),
      j ∈ l → j.tgtAlias ∉ seen →
      ∃ k, k ∈ dedupAux seen l ∧ k.tgtAlias = j.tgtAlias := by
  intro l
  induction l with
  | nil => intro seen j h; cases h
  | cons a rest ih =>
    intro seen j hj hns
    unfold dedupAux
    split
    · next hin =>
      rcases List.mem_cons.mp hj with rfl | hm
      · exact absurd hin hns
      · exact ih seen j hm hns
    · next hnin =>
      rcases List.mem_cons.mp hj with rfl | hm
      · exact ⟨j, List.mem_cons_self _ _, rfl⟩
      · by_cases heq : j.tgtAlias = a.tgtAlias
        · exact ⟨a, List.mem_cons_self _ _, heq.symm⟩
        · have hns2 : j.tgtAlias ∉ a.tgtAlias :: seen := by
            intro hc
            rcases List.mem_cons.mp hc with hc1 | hc2
            · exact heq hc1
            · exact hns hc2
          obtain ⟨k, hk, hka⟩ := ih (a.tgtAlias :: seen) j hm hns2
          exact ⟨k, List.mem_cons_of_mem a hk, hka⟩

theorem dedupAux_nodup :
    ∀ (l : List JoinStep) (seen : List String),
      (∀ k ∈ dedupAux seen l, k.tgtAlias ∉ seen) ∧
      ((dedupAux seen l).map JoinStep.tgtAlias).Nodup := by
  intro l
  induction l with
  | nil => intro seen; exact ⟨fun k h => absurd h (List.not_mem_nil k), List.nodup_nil⟩
  | cons a rest ih =>
    intro seen
    unfold dedupAux
    split
    · next hin =>
      refine ⟨(ih seen).1, (ih seen).2⟩
    · next hnin =>
      constructor
      · intro k hk
        rcases List.mem_cons.mp hk with rfl | hm
        · exact hnin
        · have := (ih (a.tgtAlias :: seen)).1 k hm
          intro hc
          exact this (List.mem_cons_of_mem _ hc)
      · rw [List.map_cons, List.nodup_cons]
        constructor
        · intro hc
          obtain ⟨k, hk, hka⟩ := List.mem_map.mp hc
          have := (ih (a.tgtAlias :: seen)).1 k hk
          exact this (hka ▸ List.mem_cons_self _ _)
        · exact (ih (a.tgtAlias :: seen)).2

theorem resolve_take_agree (reg : List ModelDef) :
    ∀ (k : Nat) (m : ModelDef) (al : String) (segs1 segs2 : List String)
      (r1 r2 : List JoinStep × String × String),
      resolvePath reg m al segs1 = some r1 → resolvePath reg m al segs2 = some r2 →
      segs1.take k = segs2.take k → k < segs1.length → k < segs2.length →
      r1.1.take k = r2.1.take k := by
  intro k
  induction k with
  | zero => intro m al segs1 segs2 r1 r2 _ _ _ _ _; simp
  | succ k ih =>
    intro m al segs1 segs2 r1 r2 h1 h2 ht hl1 hl2
    cases segs1 with
    | nil => simp at hl1
    | cons s1 t1 =>
      cases segs2 with
      | nil => simp at hl2
      | cons s2 t2 =>
        rw [List.take_succ_cons, List.take_succ_cons, List.cons.injEq] at ht
        obtain ⟨rfl, htk⟩ := ht
        cases t1 with
        | nil => simp at hl1
        | cons u1 v1 =>
          cases t2 with
          | nil => simp at hl2
          | cons u2 v2 =>
            unfold resolvePath at h1 h2
            split at h1
            · cases h1
            · next f hf =>
              split at h1
              · cases h1
              · next t hrt =>
                split at h1
                · cases h1
                · next tm hmo =>
                  split at h1
                  · cases h1
                  · next ra hra =>
                    cases h1
                    simp only [hf, hrt, hmo] at h2
                    split at h2
                    · cases h2
                    · next rb hrb =>
                      cases h2
                      rw [List.take_succ_cons, List.take_succ_cons]
                      have := ih tm (al ++ "__" ++ tm.tableName) (u1 :: v1) (u2 :: v2)
                        ra rb hra hrb htk (by simpa using hl1) (by simpa using hl2)
                      rw [this]

/-- C2 (counterexample).  The claim says the table alias for a path is the
base table name concatenated with the chain of relation *field* names.  On
the golden path `profile_id.best_post_id.title` the relation field names are
`profile_id`/`Profile` and `best_post_id`/`BestPost`, so the field-name chain
would be `user__profile_id__best_post_id` (or `user__Profile__BestPost`),
whereas the planner — as pinned byte-exactly by the test's golden strings —
emits `user__profile__post`: the chain of the traversed related models'
*table* names. -/
theorem join_alias_field_name_counterexample :
    (resolveField testReg userModel "profile_id.best_post_id.title").map
      (fun r => r.1.map JoinStep.tgtAlias) =
      some ["user__profile", "user__profile__post"] ∧
    aliasChain userModel.tableName ["profile_id", "best_post_id"] =
      ["user__profile_id", "user__profile_id__best_post_id"] ∧
    aliasChain userModel.tableName ["Profile", "BestPost"] =
      ["user__Profile", "user__Profile__BestPost"] ∧
    (["user__profile", "user__profile__post"] : List String) ≠
      ["user__profile_id", "user__profile_id__best_post_id"] ∧
    (["user__profile", "user__profile__post"] : List String) ≠
      ["user__Profile", "user__Profile__BestPost"] :=
  ⟨by decide, by decide, by decide, by decide, by decide⟩

/-- C2 (amended).  The join planner emits exactly one LEFT JOIN per distinct
resolved path prefix: after deduplication the target aliases are pairwise
distinct, every join produced by any resolved path keeps exactly one
alias-representative in the output, every emitted join comes from the input
(first-seen order), the alias of each join is the base alias extended by the
chain of the traversed related models' table names joined by the double
underscore separator, and two paths agreeing on their first `k` segments
produce identical first `k` join steps (hence reuse identical aliases);
alias assignment is a pure function of the path list, so it is stable across
repeated builds. -/
theorem join_planner_dedup_alias :
    (∀ l : List JoinStep, ((dedupJoins l).map JoinStep.tgtAlias).Nodup) ∧
    (∀ (l : List JoinStep) (j : JoinStep), j ∈ l →
      ∃ k, k ∈ dedupJoins l ∧ k.tgtAlias = j.tgtAlias) ∧
    (∀ (l : List JoinStep) (k : JoinStep), k ∈ dedupJoins l → k ∈ l) ∧
    (∀ (reg : List ModelDef) (m : ModelDef) (al : String) (segs : List String)
      (r : List JoinStep × String × String),
      resolvePath reg m al segs = some r →
      ∃ ts, tablesOf reg m segs = some ts ∧
        r.1.map JoinStep.tgtAlias = aliasChain al ts) ∧
    (∀ (reg : List ModelDef) (k : Nat) (m : ModelDef) (al : String)
      (segs1 segs2 : List String) (r1 r2 : List JoinStep × String × String),
      resolvePath reg m al segs1 = some r1 → resolvePath reg m al segs2 = some r2 →
      segs1.take k = segs2.take k → k < segs1.length → k < segs2.length →
      r1.1.take k = r2.1.take k) := by
  refine ⟨?_, ?_, ?_, ?_, ?_⟩
  · intro l
    exact (dedupAux_nodup l []).2
  · intro l j hj
    exact dedupAux_covers l [] j hj (List.not_mem_nil _)
  · intro l k hk
    exact dedupAux_subset l [] k hk
  · intro reg m al segs r h
    exact resolve_tables reg segs m al r h
  · intro reg k m al segs1 segs2 r1 r2 h1 h2 ht hl1 hl2
    exact resolve_take_agree reg k m al segs1 segs2 r1 r2 h1 h2 ht hl1 hl2

theorem join_planner_dedup_alias_witness :
    ((dedupJoins [jUserProfile, jProfilePost, jUserProfile]).map JoinStep.tgtAlias).Nodup ∧
    ([jUserProfile] : List JoinStep).take 1 = ([jUserProfile] : List JoinStep).take 1 :=
  ⟨join_planner_dedup_alias.1 _,
    join_planner_dedup_alias.2.2.2.2 testReg 1 userModel "user"
      ["profile_id", "age"] ["profile_id", "money"]
      ([jUserProfile], "user__profile", "age") ([jUserProfile], "user__profile", "money")
      (by decide) (by decide) (by decide) (by decide) (by decide)⟩

theorem qCount_append (a b : String) : qCount (a ++ b) = qCount a + qCount b := by
  unfold qCount
  rw [strData_append, List.count_append]

theorem getField_qfree (m : ModelDef) (f : FieldDef) (s : String)
    (hm : modelQFree m) (h : getField m s = some f) : qCount f.column = 0 :=
  hm.2 f (List.mem_of_find?_eq_some h)

theorem getModel_qfree (reg : List ModelDef) (n : String) (m : ModelDef)
    (hr : regQFree reg) (h : getModel reg n = some m) : modelQFree m :=
  hr m (List.mem_of_find?_eq_some h)

theorem resolvePath_qfree (reg : List ModelDef) (hr : regQFree reg) :
    ∀ (segs : List String) (m : ModelDef) (al : String)
      (r : List JoinStep × String × String),
      modelQFree m → qCount al = 0 → resolvePath reg m al segs = some r →
      (∀ j ∈ r.1, joinQFree j) ∧ qCount r.2.1 = 0 ∧ qCount r.2.2 = 0 := by
  intro segs
  induction segs with
  | nil =>
    intro m al r _ _ h
    rw [show resolvePath reg m al [] = none from rfl] at h
    cases h
  | cons seg rest ih =>
    intro m al r hm hal h
    cases rest with
    | nil =>
      unfold resolvePath at h
      split at h
      · cases h
      · next f hf =>
        cases h
        exact ⟨fun j hj => absurd hj (List.not_mem_nil j), hal, getField_qfree m f seg hm hf⟩
    | cons seg2 rest2 =>
      unfold resolvePath at h
      split at h
      · cases h
      · next f hf =>
        split at h
        · cases h
        · next t ht =>
          split at h
          · cases h
          · next tm hmo =>
            split at h
            · cases h
            · next r2 hrec =>
              cases h
              have htm : modelQFree tm := getModel_qfree reg t tm hr hmo
              have hal2 : qCount (al ++ "__" ++ tm.tableName) = 0 := by
                rw [qCount_append, qCount_append, hal, htm.1]
                decide
              obtain ⟨hjs, hfa, hfc⟩ := ih tm (al ++ "__" ++ tm.tableName) r2 htm hal2 hrec
              refine ⟨?_, hfa, hfc⟩
              intro j hj
              rcases List.mem_cons.mp hj with rfl | hmem
              · exact ⟨hal, getField_qfree m f seg hm hf, htm.1, hal2,
                  show qCount "id" = 0 from by decide⟩
              · exact hjs j hmem

theorem opSQL_qcount (op s : String) (h : opSQL op = some s) : qCount s = 1 := by
  unfold opSQL at h
  split at h <;> cases h <;> decide

theorem predSQL_qcount (reg : List ModelDef) (m : ModelDef) (path op s : String)
    (hr : regQFree reg) (hm : modelQFree m) (h : predSQL reg m path op = some s) :
    qCount s = 1 := by
  unfold predSQL at h
  split at h
  · cases h
  · next r hres =>
    split at h
    · cases h
    · next o ho =>
      cases h
      have hr2 := resolvePath_qfree reg hr (splitDots path) m m.tableName r hm hm.1 hres
      have h1 : qCount r.2.1 = 0 := hr2.2.1
      have h2 : qCount r.2.2 = 0 := hr2.2.2
      have h3 : qCount o = 1 := opSQL_qcount op o ho
      simp only [qCount_append, h1, h2, h3]
      decide

theorem renderCond_align (reg : List ModelDef) (m : ModelDef)
    (hr : regQFree reg) (hm : modelQFree m) :
    ∀ (c : Cond) (r : String × List Val), renderCond reg m c = some r →
      qCount r.1 = r.2.length ∧ r.2 = condValues c := by
  intro c
  induction c with
  | empty =>
    intro r h
    cases h
    exact ⟨by decide, rfl⟩
  | leaf p op v =>
    intro r h
    unfold renderCond at h
    split at h
    · cases h
    · next s hp =>
      cases h
      refine ⟨?_, rfl⟩
      rw [predSQL_qcount reg m p op s hr hm hp]
      rfl
  | andC c1 c2 ih1 ih2 =>
    intro r h
    unfold renderCond at h
    split at h
    · cases h
    · next a ha =>
      split at h
      · cases h
      · next b hb =>
        cases h
        obtain ⟨hq1, hv1⟩ := ih1 a ha
        obtain ⟨hq2, hv2⟩ := ih2 b hb
        constructor
        · rw [qCount_append, qCount_append, hq1, hq2]
          simp [show qCount "AND " = 0 from by decide]
        · rw [condValues, ← hv1, ← hv2]
  | orC c1 c2 ih1 ih2 =>
    intro r h
    unfold renderCond at h
    split at h
    · cases h
    · next a ha =>
      split at h
      · cases h
      · next b hb =>
        cases h
        obtain ⟨hq1, hv1⟩ := ih1 a ha
        obtain ⟨hq2, hv2⟩ := ih2 b hb
        constructor
        · rw [qCount_append, qCount_append, hq1, hq2]
          simp [show qCount "OR " = 0 from by decide]
        · rw [condValues, ← hv1, ← hv2]
  | grp c1 ih1 =>
    intro r h
    unfold renderCond at h
    split at h
    · cases h
    · next a ha =>
      cases h
      obtain ⟨hq1, hv1⟩ := ih1 a ha
      constructor
      · rw [qCount_append, qCount_append, hq1]
        simp [show qCount "(" = 0 from by decide, show qCount ") " = 0 from by decide]
      · rw [condValues, ← hv1]

theorem sqlWhereClause_ne_empty (q : Query) (h : q.cond ≠ .empty) :
    sqlWhereClause q =
      match renderCond q.reg q.model q.cond with
      | none => none
      | some r => some ("WHERE " ++ r.1, r.2) := by
  unfold sqlWhereClause
  cases hc : q.cond <;> first | exact absurd hc h | rfl

theorem sqlWhereClause_align (q : Query) (w : String × List Val)
    (hr : regQFree q.reg) (hm : modelQFree q.model) (h : sqlWhereClause q = some w) :
    qCount w.1 = w.2.length ∧ w.2 = condValues q.cond := by
  by_cases hq : q.cond = .empty
  · unfold sqlWhereClause at h
    rw [hq] at h
    cases h
    rw [hq]
    exact ⟨by decide, rfl⟩
  · rw [sqlWhereClause_ne_empty q hq] at h
    split at h
    · cases h
    · next r hrc =>
      cases h
      obtain ⟨hqc, hv⟩ := renderCond_align q.reg q.model hr hm q.cond r hrc
      constructor
      · rw [qCount_append, hqc]
        simp [show qCount "WHERE " = 0 from by decide]
      · exact hv

theorem mapO_mem {α β : Type} (f : α → Option β) :
    ∀ (l : List α) (ys : List β), mapO f l = some ys →
      ∀ y ∈ ys, ∃ x ∈ l, f x = some y := by
  intro l
  induction l with
  | nil =>
    intro ys h y hy
    cases h
    cases hy
  | cons x xs ih =>
    intro ys h y hy
    unfold mapO at h
    split at h
    · cases h
    · next y0 hx =>
      split at h
      · cases h
      · next ys0 hxs =>
        cases h
        rcases List.mem_cons.mp hy with rfl | hm
        · exact ⟨x, List.mem_cons_self _ _, hx⟩
        · obtain ⟨x2, hx2, hfx2⟩ := ih ys0 hxs y hm
          exact ⟨x2, List.mem_cons_of_mem x hx2, hfx2⟩

theorem concatAll_qfree :
    ∀ l : List String, (∀ s ∈ l, qCount s = 0) → qCount (concatAll l) = 0 := by
  intro l
  induction l with
  | nil => intro _; decide
  | cons x xs ih =>
    intro h
    unfold concatAll
    rw [qCount_append, h x (List.mem_cons_self _ _),
      ih (fun s hs => h s (List.mem_cons_of_mem x hs))]

theorem joinSep_qfree (sep : String) (hsep : qCount sep = 0) :
    ∀ l : List String, (∀ s ∈ l, qCount s = 0) → qCount (joinSep sep l) = 0 := by
  intro l
  induction l with
  | nil =>
    intro _
    show qCount "" = 0
    decide
  | cons x xs ih =>
    intro h
    cases xs with
    | nil => exact h x (List.mem_cons_self _ _)
    | cons x2 xs2 =>
      show qCount (x ++ sep ++ joinSep sep (x2 :: xs2)) = 0
      rw [qCount_append, qCount_append, h x (List.mem_cons_self _ _), hsep,
        ih (fun s hs => h s (List.mem_cons_of_mem x hs))]

theorem joinSQL_qfree (j : JoinStep) (hj : joinQFree j) : qCount (joinSQL j) = 0 := by
  obtain ⟨h1, h2, h3, h4, h5⟩ := hj
  unfold joinSQL
  simp only [qCount_append, h1, h2, h3, h4, h5]
  decide

theorem selectBase_qcount (q : Query) (fields : List String) (s : String)
    (hr : regQFree q.reg) (hm : modelQFree q.model) (h : selectBase q fields = some s) :
    qCount s = 0 := by
  unfold selectBase at h
  split at h
  · cases h
  · next rf hrf =>
    split at h
    · cases h
    · next rc hrc =>
      cases h
      have hresolved : ∀ (r : List JoinStep × String × String),
          (∃ p, resolveField q.reg q.model p = some r) →
          (∀ j ∈ r.1, joinQFree j) ∧ qCount r.2.1 = 0 ∧ qCount r.2.2 = 0 := by
        rintro r ⟨p, hp⟩
        exact resolvePath_qfree q.reg hr (splitDots p) q.model q.model.tableName r hm hm.1 hp
      have hcols : qCount (joinSep ", "
          (rf.map (fun r => "\"" ++ r.2.1 ++ "\"." ++ r.2.2))) = 0 := by
        apply joinSep_qfree _ (by decide)
        intro cs hcs
        obtain ⟨r, hrmem, rfl⟩ := List.mem_map.mp hcs
        obtain ⟨p, hpmem, hp⟩ := mapO_mem _ fields rf hrf r hrmem
        obtain ⟨-, hv1, hv2⟩ := hresolved r ⟨p, hp⟩
        simp only [qCount_append, hv1, hv2]
        decide
      have hjoins : qCount (concatAll
          ((dedupJoins ((rf.map (fun r => r.1)).flatten ++
            (rc.map (fun r => r.1)).flatten)).map joinSQL)) = 0 := by
        apply concatAll_qfree
        intro js hjs
        obtain ⟨j, hjmem, rfl⟩ := List.mem_map.mp hjs
        have hjin := dedupAux_subset _ [] j hjmem
        apply joinSQL_qfree
        rcases List.mem_append.mp hjin with hin | hin
        · obtain ⟨l, hl, hjl⟩ := List.mem_flatten.mp hin
          obtain ⟨r, hrmem, rfl⟩ := List.mem_map.mp hl
          obtain ⟨p, hpmem, hp⟩ := mapO_mem _ fields rf hrf r hrmem
          exact (hresolved r ⟨p, hp⟩).1 j hjl
        · obtain ⟨l, hl, hjl⟩ := List.mem_flatten.mp hin
          obtain ⟨r, hrmem, rfl⟩ := List.mem_map.mp hl
          obtain ⟨p, hpmem, hp⟩ := mapO_mem _ (condPaths q.cond) rc hrc r hrmem
          exact (hresolved r ⟨p, hp⟩).1 j hjl
      simp only [qCount_append, hcols, hjoins, hm.1]
      decide

/-- C4.  For every query whose registry and model carry no stray `?`
characters in their table and column names, the number of `?` placeholders in
the SQL emitted by `sqlWhereClause` and by `selectQuery` equals the length of
the returned argument list, and the argument list is exactly the condition
tree's bound values in clause (left-to-right placeholder) order, across
AND/OR merges; rendering is a pure function, so this holds identically on
repeated renderings of the same tree. -/
theorem placeholder_arg_alignment (q : Query) (fields : List String)
    (hr : regQFree q.reg) (hm : modelQFree q.model) :
    (∀ w, sqlWhereClause q = some w →
      qCount w.1 = w.2.length ∧ w.2 = condValues q.cond) ∧
    (∀ r, selectQuery q fields = some r →
      qCount r.1 = r.2.length ∧ r.2 = condValues q.cond) := by
  constructor
  · intro w h
    exact sqlWhereClause_align q w hr hm h
  · intro r h
    unfold selectQuery at h
    split at h
    · cases h
    · next base hb =>
      split at h
      · cases h
      · next w hw =>
        cases h
        obtain ⟨hqc, hv⟩ := sqlWhereClause_align q w hr hm hw
        constructor
        · rw [qCount_append, selectBase_qcount q fields base hr hm hb, hqc]
          simp
        · exact hv

theorem placeholder_arg_alignment_witness :
    regQFree q3.reg ∧ modelQFree q3.model ∧
    qCount selGolden4 = argsGolden3.length ∧ argsGolden3 = condValues q3.cond := by
  refine ⟨by decide, by decide, ?_⟩
  have h := (placeholder_arg_alignment q3 fields1a (by decide) (by decide)).2
    (selGolden4, argsGolden3) (by decide)
  exact h

theorem chainStack_eq (info : MethodInfo) (k : Nat) :
    chainStack info k = ⟨info, k⟩ :: chainTail info k := by
  cases k <;> rfl

/-! ### Claim theorems for the dispatcher -/

/-- C7 (counterexample).  The claim says `Call` always invokes the top layer
with a call stack of exactly one frame.  The code instead prepends the top
layer's frame to the receiver's current call stack: on the concrete receiver
`busyRC`, whose stack already holds the single frame `⟨probeInfo, 0⟩`, the
invoked layer observes a stack of two frames, not one. -/
theorem Call_single_frame_counterexample :
    busyRC.callStack = [⟨probeInfo, 0⟩] ∧
    Call stackLenF busyRC "probe" [] = .ok (some (.n 2)) ∧
    Ival.n 2 ≠ Ival.n 1 :=
  ⟨rfl, rfl, by decide⟩

/-- C7 (amended).  `Call` looks up the top layer of the method on the
receiver's model and invokes it with a call stack obtained by prepending that
top layer's frame to the receiver's current call stack; in particular the
stack contains exactly that one frame whenever the receiver's stack is empty
(a fresh external invocation). -/
theorem Call_prepends_receiver_stack (F : LayerImpl) (rc : RecordCollection)
    (methName : String) (args : List Ival) (info : MethodInfo)
    (h : methodsGet rc.mi methName = some info) :
    Call F rc methName args = .ok (call F rc (topLayer info) args) ∧
    (invokedRC rc (topLayer info)).callStack = topLayer info :: rc.callStack ∧
    (rc.callStack = [] → (invokedRC rc (topLayer info)).callStack = [topLayer info]) := by
  refine ⟨?_, rfl, ?_⟩
  · simp [Call, h]
  · intro he
    simp [invokedRC, he]

theorem Call_prepends_receiver_stack_witness :
    Call stackLenF freshRC "probe" [] = .ok (call stackLenF freshRC (topLayer probeInfo) []) ∧
    (invokedRC freshRC (topLayer probeInfo)).callStack = [topLayer probeInfo] := by
  have h := Call_prepends_receiver_stack stackLenF freshRC "probe" [] probeInfo (by decide)
  exact ⟨h.1, h.2.2 rfl⟩

/-- C8.  `Super` inspects the innermost frame of the current call stack and,
when the frame's layer has a predecessor, invokes exactly the layer below it
(same method entry, next chain index) with a new stack obtained by prepending
the predecessor's frame to the current stack; when the innermost layer is the
base, it is a silent no-op.  Consequently a sequence of nested `Super` calls
starting from a fresh `Call` (stack `chainStack info 0`) walks the chain
strictly downward, one layer per step, from the most recently registered layer
(index `0`) to the base (index `nLayers - 1`). -/
theorem Super_walks_chain_downward :
    (∀ (F : LayerImpl) (rc : RecordCollection) (args : List Ival)
      (curr : Frame) (rest : List Frame), rc.callStack = curr :: rest →
      (getNextLayer curr.methInfo curr = none → Super F rc args = .ok none) ∧
      (∀ nf, getNextLayer curr.methInfo curr = some nf →
        nf.methInfo = curr.methInfo ∧ nf.layerIdx = curr.layerIdx + 1 ∧
        Super F rc args = .ok (call F rc nf args) ∧
        (invokedRC rc nf).callStack = nf :: curr :: rest)) ∧
    (∀ (F : LayerImpl) (info : MethodInfo) (k : Nat)
      (rc : RecordCollection) (args : List Ival), rc.callStack = chainStack info k →
      (k + 1 < info.nLayers →
        Super F rc args = .ok (call F rc ⟨info, k + 1⟩ args) ∧
        (invokedRC rc ⟨info, k + 1⟩).callStack = chainStack info (k + 1)) ∧
      (info.nLayers ≤ k + 1 → Super F rc args = .ok none)) := by
  constructor
  · intro F rc args curr rest h
    constructor
    · intro hn
      simp [Super, h, hn]
    · intro nf hnf
      unfold getNextLayer at hnf
      split at hnf
      case isTrue hc =>
        cases hnf
        have hg : getNextLayer curr.methInfo curr =
            some ⟨curr.methInfo, curr.layerIdx + 1⟩ := by
          unfold getNextLayer
          rw [if_pos hc]
        refine ⟨rfl, rfl, ?_, ?_⟩
        · simp [Super, h, hg]
        · simp [invokedRC, h]
      case isFalse hc => cases hnf
  · intro F info k rc args h
    have h' := h
    rw [chainStack_eq] at h'
    constructor
    · intro hk
      have hg : getNextLayer info ⟨info, k⟩ = some ⟨info, k + 1⟩ := by
        unfold getNextLayer
        simp [hk]
      constructor
      · simp [Super, h', hg]
      · show Frame.mk info (k + 1) :: rc.callStack = chainStack info (k + 1)
        rw [h]
        rfl
    · intro hk
      have hg : getNextLayer info ⟨info, k⟩ = none := by
        unfold getNextLayer
        rw [if_neg (by simp; omega)]
      simp [Super, h', hg]

theorem Super_walks_chain_downward_witness :
    Super stackLenF busyRC [] = .ok (call stackLenF busyRC ⟨probeInfo, 1⟩ []) ∧
    (invokedRC busyRC ⟨probeInfo, 1⟩).callStack = chainStack probeInfo 1 :=
  (Super_walks_chain_downward.2 stackLenF probeInfo 0 busyRC [] rfl).1 (by decide)

/-- C9.  `Call` takes the fatal path exactly when the method name is unknown
on the receiver's model; `Super` takes the fatal path exactly when the call
stack is empty; and `Super` at the base layer (no predecessor) is not an
error: it silently returns the empty result `none`. -/
theorem dispatch_error_taxonomy (F : LayerImpl) (rc : RecordCollection)
    (methName : String) (args : List Ival) :
    ((Call F rc methName args = .error "Unknown method in model") ↔
      methodsGet rc.mi methName = none) ∧
    ((Super F rc args = .error "Empty call stack") ↔ rc.callStack = []) ∧
    (∀ curr rest, rc.callStack = curr :: rest →
      getNextLayer curr.methInfo curr = none → Super F rc args = .ok none) := by
  refine ⟨?_, ?_, ?_⟩
  · unfold Call
    cases h : methodsGet rc.mi methName <;> simp
  · unfold Super
    cases h : rc.callStack with
    | nil => simp
    | cons curr rest =>
      cases hn : getNextLayer curr.methInfo curr <;> simp [hn]
  · intro curr rest h hn
    simp [Super, h, hn]

theorem dispatch_error_taxonomy_witness :
    Call stackLenF freshRC "nope" [] = .error "Unknown method in model" ∧
    Super stackLenF freshRC [] = .error "Empty call stack" ∧
    Super stackLenF baseRC [] = .ok none := by
  refine ⟨?_, ?_, ?_⟩
  · exact (dispatch_error_taxonomy stackLenF freshRC "nope" []).1.mpr (by decide)
  · exact (dispatch_error_taxonomy stackLenF freshRC "nope" []).2.1.mpr rfl
  · exact (dispatch_error_taxonomy stackLenF baseRC "nope" []).2.2 ⟨probeInfo, 2⟩ [] rfl (by decide)

/-- C10.  Whatever slice of values the invoked layer's underlying function
returns, the dispatch (`call`, hence `Call` on a known method and `Super` when
a predecessor exists) returns `none` when the slice is empty and otherwise its
first element, discarding any further returned values. -/
theorem dispatch_returns_first_value (F : LayerImpl) (rc : RecordCollection)
    (fr : Frame) (args : List Ival) :
    call F rc fr args = (F fr.methInfo fr.layerIdx (invokedRC rc fr) args).head? ∧
    (∀ methName info, methodsGet rc.mi methName = some info →
      Call F rc methName args =
        .ok ((F info 0 (invokedRC rc (topLayer info)) args).head?)) ∧
    (∀ curr rest nf, rc.callStack = curr :: rest →
      getNextLayer curr.methInfo curr = some nf →
      Super F rc args = .ok ((F nf.methInfo nf.layerIdx (invokedRC rc nf) args).head?)) := by
  have hcall : ∀ g : Frame, call F rc g args =
      (F g.methInfo g.layerIdx (invokedRC rc g) args).head? := by
    intro g
    unfold call
    cases F g.methInfo g.layerIdx (invokedRC rc g) args <;> rfl
  refine ⟨hcall fr, ?_, ?_⟩
  · intro methName info h
    simp [Call, h]
    exact hcall (topLayer info)
  · intro curr rest nf h hnf
    simp [Super, h, hnf]
    exact hcall nf

theorem dispatch_returns_first_value_witness :
    Call noneF freshRC "probe" [] = .ok none ∧
    Call twoF freshRC "probe" [] = .ok (some (.n 7)) := by
  have h1 := (dispatch_returns_first_value noneF freshRC (topLayer probeInfo) []).2.1
    "probe" probeInfo (by decide)
  have h2 := (dispatch_returns_first_value twoF freshRC (topLayer probeInfo) []).2.1
    "probe" probeInfo (by decide)
  exact ⟨h1, h2⟩

end Models

